import Mathlib

/-!
A verification development for the grouping engine of `ez-groupby-tree-mixin`
(`src/components/ez-groupby-tree-mixin.js`).

The JavaScript mixin is shallowly embedded: record values are modelled by the
inductive `Value` (strings, integers, and `undefined`); in-place mutation of
caller-supplied spec objects is modelled by explicit state passing (`fullPrep`
returns the parsed spec, `QuartileSt` returns the post-state of its array
argument); code that can throw returns `Option` (`none` models an uncaught
exception / JS `NaN` where noted at the definition).
-/

/-- A JavaScript value in the fragment the engine manipulates: `undefined`,
a string, or a number. Numbers are modelled as integers: every number the
aggregation pipeline produces from record fields goes through `parseInt`. -/
inductive Value where
  | undefined
  | str (s : String)
  | num (n : Int)
  deriving DecidableEq

/-- JS `ToString` on the modelled value fragment (`String(v)`): `undefined`
prints as `"undefined"`, numbers in decimal. -/
def valToString : Value → String
  | .undefined => "undefined"
  | .str s => s
  | .num n => toString n

def isWsChar (c : Char) : Bool := c == ' ' || c == '\t' || c == '\n' || c == '\r'

/-- Characters with leading and trailing whitespace removed. -/
def trimChars (cs : List Char) : List Char :=
  ((cs.dropWhile isWsChar).reverse.dropWhile isWsChar).reverse

/-- Numeric value of a list of decimal digits. -/
def digitsToNat (cs : List Char) : Nat := cs.foldl (fun a c => 10 * a + (c.toNat - 48)) 0

/-- `some` of the digits' value when the list is a nonempty all-digit run. -/
def digitsAll (cs : List Char) : Option Nat :=
  if cs ≠ [] ∧ cs.all Char.isDigit then some (digitsToNat cs) else none

/-- A full signed decimal integer literal, `none` otherwise. -/
def strToIntFull : List Char → Option Int
  | '-' :: rest => (digitsAll rest).map (fun n => -(n : Int))
  | '+' :: rest => (digitsAll rest).map (fun n => (n : Int))
  | rest => (digitsAll rest).map (fun n => (n : Int))

/-- JS `ToNumber` on a string, restricted to the integer-valued fragment:
a whitespace-trimmed empty string converts to `0`, a signed integer literal
to its value, and anything else (including non-integer numerics, which
cannot equal any modelled integer anyway) to `none`, standing for `NaN`. -/
def jsStringToNumber (s : String) : Option Int :=
  let t := trimChars s.data
  if t = [] then some 0 else strToIntFull t

/-- JS loose equality `==` on the modelled value fragment: same-type values
compare directly, a string and a number compare after `ToNumber` on the
string, `undefined` equals only `undefined`. -/
def looseEqB : Value → Value → Bool
  | .undefined, .undefined => true
  | .str a, .str b => a == b
  | .num a, .num b => a == b
  | .str s, .num n => jsStringToNumber s == some n
  | .num n, .str s => jsStringToNumber s == some n
  | _, _ => false

/-- A record: a JS object, modelled as an association list from property
names to values (the engine only ever reads properties). -/
abbrev Record := List (String × Value)

/-- JS property read `r[k]`: the key is `ToString`-converted (so an
`undefined` field name reads property `"undefined"`); a missing property
yields `undefined`. -/
def getField (r : Record) (k : Value) : Value :=
  match r.find? (fun p => p.1 == valToString k) with
  | some p => p.2
  | none => .undefined

/-- `listPre pre cs` is true iff `pre` is an initial segment of `cs`. -/
def listPre : List Char → List Char → Bool
  | [], _ => true
  | _ :: _, [] => false
  | a :: as, b :: bs => a == b && listPre as bs

/-- Model of the anchored regex tests `/^lit/.test(s)` used throughout the
source (`/^date_trunc/`, `/^sum/`, `/^max/`, ...): true iff `s` starts with
the literal `lit`. -/
def reTest (lit : String) (s : String) : Bool := listPre lit.data s.data

/-- The characters of `cs` that precede the last `')'` of `cs`, or `none`
when `cs` contains no `')'`. -/
def lastBeforeClose : List Char → Option (List Char)
  | [] => none
  | c :: rest =>
    match lastBeforeClose rest with
    | some t => some (c :: t)
    | none => if c = ')' then some [] else none

/-- Model of `s.match(/\((.*)\)/)` returning capture group 1: the greedy
`.*` spans from the first `'('` to the last `')'` of the string; `none` when
the regex does not match (no `'('`, or no `')'` after the first `'('`). -/
def jsMatchParen (s : String) : Option String :=
  match s.data.dropWhile (fun c => c ≠ '(') with
  | [] => none
  | _ :: after => (lastBeforeClose after).map (fun cs => String.mk cs)

/-- `parseAggStr` from the source: `str.match(/\((.*)\)/)[1]`. When the
regex does not match, `match` is `null` and the indexing throws; the throw is
modelled by `none`. -/
def parseAggStr (s : String) : Option String := jsMatchParen s

/-- `s.split(/,/)`: split on commas, keeping empty pieces. -/
def splitCommaAux : List Char → List Char → List String
  | [], acc => [String.mk acc.reverse]
  | ',' :: rest, acc => String.mk acc.reverse :: splitCommaAux rest []
  | c :: rest, acc => splitCommaAux rest (c :: acc)

def splitComma (s : String) : List String := splitCommaAux s.data []

/-- `s.slice(0, n)` on our ASCII ISO strings: the first `n` characters. -/
def strTake (s : String) (n : Nat) : String := String.mk (s.data.take n)

def isLeap (y : Nat) : Bool := (y % 4 == 0 && y % 100 != 0) || y % 400 == 0

def daysInMonth (y m : Nat) : Nat :=
  if m == 2 then (if isLeap y then 29 else 28)
  else if m == 4 || m == 6 || m == 9 || m == 11 then 30 else 31

/-- `n` in decimal, left-padded with zeros to width `w`. -/
def padNum (w n : Nat) : String :=
  let s := toString n
  String.mk (List.replicate (w - s.length) '0') ++ s

/-- The canonical `Date.prototype.toISOString` rendering
`YYYY-MM-DDTHH:MM:SS.mmmZ` of broken-down UTC components. -/
def fmtISO (y mo d h mi s ms : Nat) : String :=
  padNum 4 y ++ "-" ++ padNum 2 mo ++ "-" ++ padNum 2 d ++ "T" ++
    padNum 2 h ++ ":" ++ padNum 2 mi ++ ":" ++ padNum 2 s ++ "." ++ padNum 3 ms ++ "Z"

/-- Time-of-day tail of an ISO date string: empty (midnight), or
`THH:MM:SSZ`, or `THH:MM:SS.mmmZ`, with field range checks. -/
def parseTimeTail (y mo d : Nat) : List Char → Option String
  | [] => some (fmtISO y mo d 0 0 0 0)
  | 'T' :: h1 :: h2 :: ':' :: i1 :: i2 :: ':' :: s1 :: s2 :: rest =>
    if [h1, h2, i1, i2, s1, s2].all Char.isDigit then
      let h := digitsToNat [h1, h2]
      let mi := digitsToNat [i1, i2]
      let se := digitsToNat [s1, s2]
      if h ≤ 23 ∧ mi ≤ 59 ∧ se ≤ 59 then
        match rest with
        | ['Z'] => some (fmtISO y mo d h mi se 0)
        | '.' :: f1 :: f2 :: f3 :: ['Z'] =>
          if [f1, f2, f3].all Char.isDigit then
            some (fmtISO y mo d h mi se (digitsToNat [f1, f2, f3]))
          else none
        | _ => none
      else none
    else none
  | _ => none

/-- ISO string parse-and-canonicalize: `YYYY-MM-DD` optionally followed by a
UTC time tail, with calendar validity checks (month and day ranges, leap
years); invalid input gives `none`. -/
def parseDateString (s : String) : Option String :=
  match s.data with
  | y1 :: y2 :: y3 :: y4 :: '-' :: m1 :: m2 :: '-' :: d1 :: d2 :: rest =>
    if [y1, y2, y3, y4, m1, m2, d1, d2].all Char.isDigit then
      let y := digitsToNat [y1, y2, y3, y4]
      let mo := digitsToNat [m1, m2]
      let d := digitsToNat [d1, d2]
      if 1 ≤ mo ∧ mo ≤ 12 ∧ 1 ≤ d ∧ d ≤ daysInMonth y mo then parseTimeTail y mo d rest
      else none
    else none
  | _ => none

/-- Civil date from a day count since 1970-01-01 (Gregorian). -/
def civilFromDays (z : Nat) : Nat × Nat × Nat :=
  let z' := z + 719468
  let era := z' / 146097
  let doe := z' % 146097
  let yoe := (doe - doe / 1460 + doe / 36524 - doe / 146096) / 365
  let y := yoe + era * 400
  let doy := doe - (365 * yoe + yoe / 4 - yoe / 100)
  let mp := (5 * doy + 2) / 153
  let d := doy - (153 * mp + 2) / 5 + 1
  let m := if mp < 10 then mp + 3 else mp - 9
  (if m ≤ 2 then y + 1 else y, m, d)

/-- ISO rendering of an epoch-millisecond number, modelled on the range
1970-01-01 .. year 9999 (where `toISOString` renders four-digit years);
outside it, `none`. -/
def epochMsToISO (n : Int) : Option String :=
  if 0 ≤ n then
    let ms := n.toNat
    let rem := ms % 86400000
    let ymd := civilFromDays (ms / 86400000)
    if ymd.1 ≤ 9999 then
      some (fmtISO ymd.1 ymd.2.1 ymd.2.2 (rem / 3600000) (rem % 3600000 / 60000)
        (rem % 60000 / 1000) (rem % 1000))
    else none
  else none

/-- Modelled from the spec: `new Date(val).toISOString()` uses the host
`Date` builtin, which is not part of the repository source. The spec (§4.2)
requires the value to be "interpreted as a date" with invalid input failing.
The model parses ISO `YYYY-MM-DD` dates and `YYYY-MM-DDTHH:MM:SS[.mmm]Z` UTC
datetimes, and epoch milliseconds for numbers; every other value is treated
as an invalid date (`toISOString` throws), yielding `none`. -/
def jsDateToISO : Value → Option String
  | .str s => parseDateString s
  | .num n => epochMsToISO n
  | .undefined => none

namespace EzGroupby

/-- One entry of a group's `datasets` array (a series descriptor). Display
fields the engine passes through unchanged (`label`, colors, `type`) are
omitted; `aggField` is the property the source attaches in place inside
`groupBy` (initially absent, i.e. `undefined`). -/
structure Dataset where
  data : String
  aggField : Value
  deriving DecidableEq

/-- One level of the drill-down (a `groups` array element). `modifier` and
`modifierParams` are absent (`none` / `[]`) until `parseGroupByField`
attaches them. The field name is a `Value` because the source can rewrite it
to `group.modifierParams[1]`, which is `undefined` when the split produced
fewer than two tokens. -/
structure Group where
  field : Value
  modifier : Option String
  modifierParams : List String
  datasets : List Dataset
  chart : Option String
  deriving DecidableEq

/-- `applyModifier(val, group)` from the source: identity when no modifier is
attached; for a `date_trunc` modifier, dispatch on the unit prefix
(`day`/`month`/`year`) and slice the ISO rendering of the date to length
10/7/4, falling back to the unmodified value when `toISOString` throws
(the `try { ... } catch (e) {}` in the source). -/
def applyModifier (val : Value) (g : Group) : Value :=
  match g.modifier with
  | none => val
  | some m =>
    if reTest "date_trunc" m then
      match g.modifierParams with
      | [] => val
      | truncType :: _ =>
        if reTest "day" truncType then
          match jsDateToISO val with
          | some iso => .str (strTake iso 10)
          | none => val
        else if reTest "month" truncType then
          match jsDateToISO val with
          | some iso => .str (strTake iso 7)
          | none => val
        else if reTest "year" truncType then
          match jsDateToISO val with
          | some iso => .str (strTake iso 4)
          | none => val
        else val
    else val

/-- The group value of record `r` at level `g`:
`applyModifier(r[group.field], group)`. -/
def modF (g : Group) (r : Record) : Value := applyModifier (getField r g.field) g

/-- `IN(list, val)` from the source: `list.indexOf(val) != -1`. `indexOf`
uses strict equality, i.e. membership with respect to `Value` equality. -/
def IN (list : List Value) (val : Value) : Bool := decide (val ∈ list)

/-- One step of the unique-values loop of `groupBy`: push the record's
(post-modifier) group value unless it is already present. -/
def addName (g : Group) (names : List Value) (r : Record) : List Value :=
  let v := modF g r
  if IN names v then names else names ++ [v]

/-- The unique-values loop of `groupBy`. -/
def collectNames (data : List Record) (g : Group) : List Value :=
  data.foldl (addName g) []

/-- Lexicographic code-unit comparison of two character sequences, the order
underlying the JS default sort comparator. -/
def charListLe : List Char → List Char → Bool
  | [], _ => true
  | _ :: _, [] => false
  | a :: as, b :: bs => if a = b then charListLe as bs else decide (a < b)

theorem charListLe_total : ∀ (as bs : List Char),
    charListLe as bs = true ∨ charListLe bs as = true
  | [], _ => Or.inl rfl
  | _ :: _, [] => Or.inr rfl
  | a :: as, b :: bs => by
    by_cases hab : a = b
    · subst hab
      rcases charListLe_total as bs with h | h
      · exact Or.inl (by simp [charListLe, h])
      · exact Or.inr (by simp [charListLe, h])
    · rcases lt_or_gt_of_ne hab with h | h
      · exact Or.inl (by simp [charListLe, hab, h])
      · exact Or.inr (by simp [charListLe, Ne.symm hab, h, not_lt_of_gt h])

theorem charListLe_trans : ∀ {as bs cs : List Char},
    charListLe as bs = true → charListLe bs cs = true → charListLe as cs = true
  | [], _, _, _, _ => rfl
  | _ :: _, [], _, h1, _ => by cases h1
  | _ :: _, _ :: _, [], _, h2 => by cases h2
  | a :: as, b :: bs, c :: cs, h1, h2 => by
    by_cases hab : a = b <;> by_cases hbc : b = c
    · subst hab; subst hbc
      simp only [charListLe, if_pos rfl] at h1 h2 ⊢
      exact charListLe_trans h1 h2
    · subst hab
      simp only [charListLe, if_pos rfl, if_neg hbc] at h2 ⊢
      exact h2
    · subst hbc
      simp only [charListLe, if_pos rfl, if_neg hab] at h1 ⊢
      exact h1
    · simp only [charListLe, if_neg hab, if_neg hbc, decide_eq_true_eq] at h1 h2
      have hac : a < c := lt_trans h1 h2
      simp [charListLe, ne_of_lt hac, hac]

/-- The order of the JS default `sort()` (ECMAScript `SortCompare`):
`undefined` elements are moved past every defined element without string
conversion; defined elements are converted to strings and compared
lexicographically by code units. -/
def jsCmpLe : Value → Value → Bool
  | .undefined, .undefined => true
  | .undefined, _ => false
  | _, .undefined => true
  | a, b => charListLe (valToString a).data (valToString b).data

def vle (a b : Value) : Prop := jsCmpLe a b = true

instance : DecidableRel vle :=
  fun a b => inferInstanceAs (Decidable (_ = true))

instance : IsTotal Value vle :=
  ⟨fun a b => by
    cases a <;> cases b <;>
      first
      | exact Or.inl rfl
      | exact Or.inr rfl
      | exact charListLe_total _ _⟩

instance : IsTrans Value vle :=
  ⟨fun a b c h1 h2 => by
    cases a <;> cases b <;> cases c <;>
      first
      | rfl
      | exact h2
      | exact Bool.noConfusion h1
      | exact Bool.noConfusion h2
      | exact charListLe_trans h1 h2⟩

/-- `names.sort()`: a stable ascending sort under the JS default comparator
(stringwise, with `undefined` sorted to the end), modelled by insertion
sort, which is stable for `vle`. -/
def sortNames (names : List Value) : List Value := List.insertionSort vle names

/-- The distinct-value sequence of one `groupBy` level: collected first-seen,
then sorted by `names.sort()`. -/
def distinctNames (data : List Record) (g : Group) : List Value :=
  sortNames (collectNames data g)

/-- The bucket of records for group value `name`: the inner filter loop of
`groupBy` (`applyModifier(data[i][group.field], group) == name`, a loose
equality). -/
def bucket (data : List Record) (g : Group) (name : Value) : List Record :=
  data.filter (fun r => looseEqB (modF g r) name)

/-- Sequence a list of optional values; `none` as soon as any entry is
`none` (a thrown exception aborts the whole loop). -/
def optSequence : List (Option α) → Option (List α)
  | [] => some []
  | none :: _ => none
  | some a :: rest => (optSequence rest).map (a :: ·)

/-- The digits-prefix value used by `parseInt`, `none` when no digits. -/
def leadingDigits (cs : List Char) : Option Nat :=
  let ds := cs.takeWhile Char.isDigit
  if ds.isEmpty then none else some (digitsToNat ds)

/-- JS `parseInt` on a value: `ToString`, skip leading whitespace, optional
sign, then the longest digit run; `none` models `NaN` (no digits). The hex
`0x` form is outside the modelled fragment. -/
def jsParseInt (v : Value) : Option Int :=
  let cs := (valToString v).data.dropWhile (fun c => c == ' ' || c == '\t' || c == '\n' || c == '\r')
  match cs with
  | '-' :: rest => (leadingDigits rest).map (fun n => -(n : Int))
  | '+' :: rest => (leadingDigits rest).map (fun n => (n : Int))
  | rest => (leadingDigits rest).map (fun n => (n : Int))

/-- `Number.MIN_SAFE_INTEGER`. -/
def minSafeInteger : Int := -9007199254740991

/-- `Number.MAX_SAFE_INTEGER`. -/
def maxSafeInteger : Int := 9007199254740991

/-- `Array_Sort_Numbers(inputarray)`: `inputarray.sort((a,b) => a - b)`, an
ascending numeric sort. The source sorts the argument array in place and
returns it; callers observe the sorted content (see `QuartileSt`). -/
def Array_Sort_Numbers (l : List Rat) : List Rat := List.insertionSort (· ≤ ·) l

/-- JS array indexing `l[i]` for a possibly negative index: `undefined`
(here `none`) when out of range. -/
def jsIdx (l : List Rat) (i : Int) : Option Rat :=
  if 0 ≤ i then l.get? i.toNat else none

/-- `Quartile(data, q)` with the in-place sort made explicit: the first
component is the returned value (`none` models `undefined`/`NaN` reads on
out-of-range indices), the second is the post-call content of the caller's
array, which `data = this.Array_Sort_Numbers(data)` has sorted in place. -/
def QuartileSt (data : List Rat) (q : Rat) : Option Rat × List Rat :=
  let d := Array_Sort_Numbers data
  let pos : Rat := ((d.length : Rat) - 1) * q
  let base : Int := ⌊pos⌋
  let rest : Rat := pos - (base : Rat)
  (match jsIdx d (base + 1) with
   | some nxt => (jsIdx d base).map (fun b => b + rest * (nxt - b))
   | none => jsIdx d base, d)

/-- The value `Quartile(data, q)` returns. -/
def Quartile (data : List Rat) (q : Rat) : Option Rat := (QuartileSt data q).1

def Quartile_25St (data : List Rat) : Option Rat × List Rat := QuartileSt data (1/4)

def Quartile_50St (data : List Rat) : Option Rat × List Rat := QuartileSt data (1/2)

def Quartile_75St (data : List Rat) : Option Rat × List Rat := QuartileSt data (3/4)

def Quartile_25 (data : List Rat) : Option Rat := Quartile data (1/4)

def Quartile_50 (data : List Rat) : Option Rat := Quartile data (1/2)

def Quartile_75 (data : List Rat) : Option Rat := Quartile data (3/4)

def Median (data : List Rat) : Option Rat := Quartile_50 data

/-- Result of one aggregate series: a number, `NaN` (a sum poisoned by a
non-numeric value), or a boxplot record. The boxplot's `max`/`min` are the
running-comparison integers; its quantiles are `none` when undefined. -/
inductive AggResult where
  | int (n : Int)
  | nan
  | box (bmax bmin : Int) (median q1 q3 : Option Rat)
  deriving DecidableEq

/-- The `sum` branch accumulator: `returnNum = parseInt(...) + returnNum`
over matching records, `NaN` (`none`) once any parse fails. -/
def sumFold (data : List Record) (g : Group) (name : Value) (aggF : Value) : Option Int :=
  data.foldl (fun acc r =>
    if looseEqB (modF g r) name then
      match acc, jsParseInt (getField r aggF) with
      | some a, some k => some (k + a)
      | _, _ => none
    else acc) (some 0)

/-- The `max` branch accumulator: running maximum over matching records'
parsed values, starting from `Number.MIN_SAFE_INTEGER`; a `NaN` parse fails
the `<` comparison and leaves the accumulator unchanged. -/
def maxFold (data : List Record) (g : Group) (name : Value) (aggF : Value) : Int :=
  data.foldl (fun acc r =>
    if looseEqB (modF g r) name then
      match jsParseInt (getField r aggF) with
      | some k => if acc < k then k else acc
      | none => acc
    else acc) minSafeInteger

/-- The `min` branch accumulator, dually from `Number.MAX_SAFE_INTEGER`. -/
def minFold (data : List Record) (g : Group) (name : Value) (aggF : Value) : Int :=
  data.foldl (fun acc r =>
    if looseEqB (modF g r) name then
      match jsParseInt (getField r aggF) with
      | some k => if k < acc then k else acc
      | none => acc
    else acc) maxSafeInteger

/-- The `count` branch accumulator. -/
def countFold (data : List Record) (g : Group) (name : Value) : Int :=
  data.foldl (fun acc r => if looseEqB (modF g r) name then acc + 1 else acc) 0

/-- One `datasets[j]` dispatch step of `aggFunction`: prefix-match the
series string against `sum`/`max`/`min`/`count`/`boxplot`; an unknown kind
only logs a diagnostic and pushes nothing (`none`). In the boxplot branch a
`NaN` parse would make the comparator-based sort order of `arrayOfValues`
host-unspecified; the quantiles are modelled as undefined in that case. -/
def aggOne (data : List Record) (g : Group) (name : Value) (d : Dataset) : Option AggResult :=
  if reTest "sum" d.data then
    some (match sumFold data g name d.aggField with
          | some n => .int n
          | none => .nan)
  else if reTest "max" d.data then some (.int (maxFold data g name d.aggField))
  else if reTest "min" d.data then some (.int (minFold data g name d.aggField))
  else if reTest "count" d.data then some (.int (countFold data g name))
  else if reTest "boxplot" d.data then
    let bmin := minFold data g name d.aggField
    let bmax := maxFold data g name d.aggField
    let parsed := (data.filter (fun r => looseEqB (modF g r) name)).map
      (fun r => jsParseInt (getField r d.aggField))
    some (match optSequence parsed with
          | some vals =>
            let vq : List Rat := vals.map (fun k => (k : Rat))
            .box bmax bmin (Quartile_50 vq) (Quartile_25 vq) (Quartile_75 vq)
          | none => .box bmax bmin none none none)
  else none

/-- `aggFunction(me, data, group, name)`: one aggregate result per series in
`group.datasets`, in order, unknown kinds contributing nothing. -/
def aggFunction (data : List Record) (g : Group) (name : Value) : List AggResult :=
  g.datasets.filterMap (aggOne data g name)

/-- The aggregate-field parse-and-attach loop at the top of `groupBy`
(`group.datasets[i]['aggField'] = this.parseAggStr(...)`), with the in-place
writes modelled by returning the updated dataset; a failed parse throws. -/
def prepDataset (d : Dataset) : Option Dataset :=
  (parseAggStr d.data).map (fun f => { d with aggField := .str f })

/-- All datasets of a group prepared; the first failing parse aborts. -/
def prepDatasets (g : Group) : Option Group :=
  (optSequence (g.datasets.map prepDataset)).map (fun ds => { g with datasets := ds })

/-- `parseGroupByField(group, str)` from the source: when `str` matches
`/^date_trunc/` lexically and contains a parenthesized group, attach
`modifier`/`modifierParams` and overwrite `group.field` with
`modifierParams[1]` (which is `undefined` when the comma split produced a
single token); otherwise return the group unchanged. -/
def parseGroupByField (g : Group) (strv : Value) : Group :=
  if reTest "date_trunc" (valToString strv) then
    match jsMatchParen (valToString strv) with
    | some inner =>
      let params := splitComma inner
      { g with modifier := some "date_trunc",
               modifierParams := params,
               field := match params.get? 1 with
                        | some s => .str s
                        | none => .undefined }
    | none => g
  else g

/-- The whole spec-parsing prefix of one `groupBy` level, i.e. the in-place
mutation the first run leaves on a caller's spec object: aggregate fields
attached, then `parseGroupByField` applied. -/
def fullPrep (g : Group) : Option Group :=
  (prepDatasets g).map (fun g1 => parseGroupByField g1 g1.field)

/-- `pathAggFunction`'s loop over the full group-by list: append each
ancestor's modified value of the bucket's first record joined by `" > "`,
stopping at the first spec whose field equals the current group's field
(a JS loose `!=` comparison). -/
def pathWalk (r0 : Record) (g : Group) : List Group → String
  | [] => ""
  | gi :: rest =>
    if looseEqB gi.field g.field then valToString (applyModifier (getField r0 gi.field) gi)
    else valToString (applyModifier (getField r0 gi.field) gi) ++ " > " ++ pathWalk r0 g rest

/-- `pathAggFunction(me, data, groups, group, name)`: the breadcrumb built
from `data[0]`; on an empty bucket the `data[0][...]` read would throw
(`none`) — unreachable from `groupBy`, whose buckets are nonempty. -/
def pathAggFunction (data : List Record) (groups : List Group) (g : Group) (name : Value) :
    Option String :=
  match data with
  | [] => none
  | r0 :: _ => some (pathWalk r0 g groups)

mutual
/-- What `groupBy` returns: at the base case (`groups` empty),
`Object.assign({}, data)` — a plain object whose enumerable keys are the
array indices mapped to the same records, modelled as the enumerated list;
otherwise the array `r` of sibling nodes. -/
inductive GroupByResult where
  | leafObj (entries : List (Nat × Record))
  | nodes (children : List GroupNode)

/-- One node pushed onto `r` in `groupBy`, with the fields the engine
computes. `downloadObj` (external instance state `this.downloadFields`) and the
alias `groups: fullGroupBy` of the caller's spec array are outside the
modelled engine state and are omitted. -/
inductive GroupNode where
  | mk (name : Value) (chart : Option String) (y : List AggResult)
       (drilldown : GroupByResult) (group : Group) (path : Option String)
       (data : List Record)
end

def GroupNode.name : GroupNode → Value
  | .mk n _ _ _ _ _ _ => n

def GroupNode.chart : GroupNode → Option String
  | .mk _ c _ _ _ _ _ => c

def GroupNode.y : GroupNode → List AggResult
  | .mk _ _ v _ _ _ _ => v

def GroupNode.drilldown : GroupNode → GroupByResult
  | .mk _ _ _ s _ _ _ => s

def GroupNode.group : GroupNode → Group
  | .mk _ _ _ _ g _ _ => g

def GroupNode.path : GroupNode → Option String
  | .mk _ _ _ _ _ p _ => p

def GroupNode.data : GroupNode → List Record
  | .mk _ _ _ _ _ _ d => d

/-- The body of one branch-state level of `groupBy`, after the head spec has
been parsed into `g2`: for each distinct group value (in sorted order) build
the node `{name, chart, y, drilldown, group, path, data}` the source pushes
onto `r`, recursing through `recur` (the `groupBy` call on the remaining
specs) for the drilldown; a throw anywhere aborts the level. -/
def groupByLevel (recur : List Record → List Group → Option GroupByResult)
    (g2 : Group) (data : List Record) (anc : List Group) : Option GroupByResult :=
  let anc2 := anc ++ [g2]
  (optSequence ((distinctNames data g2).map (fun name =>
    let f := bucket data g2 name
    (recur f anc2).map (fun sub =>
      GroupNode.mk name g2.chart (aggFunction f g2 name) sub g2
        (pathAggFunction f anc2 g2 name) f)))).map GroupByResult.nodes

/-- `groupBy(data, groups, fullGroupBy)` with the default aggregate and path
strategies. The grouping-spec list comes first so the recursion is
structural on it. The third argument models `fullGroupBy` as the list of
already-parsed ancestor specs including the current one: in the source
`fullGroupBy` aliases the caller's array, whose entries up to the current
depth have been parsed in place by the time `pathAggFunction` runs, and the
walk stops at the current spec's field, so deeper (unparsed) entries are
never read. A `parseAggStr` throw (`none`) aborts the whole call. -/
def groupBy (groups : List Group) : List Record → List Group → Option GroupByResult :=
  List.rec (motive := fun _ => List Record → List Group → Option GroupByResult)
    (fun data _ => some (.leafObj data.enum))
    (fun g _rest ih data anc =>
      match prepDatasets g with
      | none => none
      | some g1 => groupByLevel ih (parseGroupByField g1 g1.field) data anc)
    groups

/-! ### Helper lemmas -/

theorem optSequence_some {α} : ∀ {L : List (Option α)} {xs : List α},
    optSequence L = some xs → List.Forall₂ (fun o x => o = some x) L xs := by
  intro L
  induction L with
  | nil => intro xs h; simp [optSequence] at h; subst h; exact List.Forall₂.nil
  | cons o t ih =>
    intro xs h
    match o with
    | none => simp [optSequence] at h
    | some a =>
      simp only [optSequence, Option.map_eq_some'] at h
      obtain ⟨ys, hys, hxs⟩ := h
      subst hxs
      exact List.Forall₂.cons rfl (ih hys)

theorem optSequence_none {α} {L : List (Option α)} (h : none ∈ L) : optSequence L = none := by
  induction L with
  | nil => cases h
  | cons o t ih =>
    match o with
    | none => rfl
    | some a =>
      have ht : none ∈ t := by
        cases h with
        | tail _ h2 => exact h2
      simp [optSequence, ih ht]

theorem forall2_of_map_some {α β} {F : α → Option β} {P : α → β → Prop}
    (hF : ∀ a b, F a = some b → P a b) :
    ∀ {l : List α} {xs : List β},
      List.Forall₂ (fun o x => o = some x) (l.map F) xs → List.Forall₂ P l xs := by
  intro l
  induction l with
  | nil => intro xs h; cases h; exact List.Forall₂.nil
  | cons a t ih =>
    intro xs h
    rw [List.map_cons] at h
    cases h with
    | cons hab ht => exact List.Forall₂.cons (hF _ _ hab) (ih ht)

theorem forall2_mem_right {α β} {P : α → β → Prop} :
    ∀ {l : List α} {xs : List β}, List.Forall₂ P l xs → ∀ x ∈ xs, ∃ a ∈ l, P a x := by
  intro l
  induction l with
  | nil => intro xs h x hx; cases h; cases hx
  | cons a t ih =>
    intro xs h x hx
    cases h with
    | cons hab ht =>
      cases hx with
      | head => exact ⟨a, List.mem_cons_self _ _, hab⟩
      | tail _ hx2 =>
        obtain ⟨b, hb, hPb⟩ := ih ht x hx2
        exact ⟨b, List.mem_cons_of_mem _ hb, hPb⟩

theorem map_eq_of_forall2 {α β γ} {f : β → γ} {h : α → γ} :
    ∀ {l : List α} {xs : List β},
      List.Forall₂ (fun a b => f b = h a) l xs → xs.map f = l.map h := by
  intro l
  induction l with
  | nil => intro xs hf; cases hf; rfl
  | cons a t ih =>
    intro xs hf
    cases hf with
    | cons hab ht => simp [List.map_cons, hab, ih ht]

theorem count_filter_eq {α} [DecidableEq α] (p : α → Bool) (l : List α) (a : α) :
    (l.filter p).count a = if p a then l.count a else 0 := by
  by_cases hp : p a = true
  · rw [if_pos hp]
    exact List.count_filter hp
  · rw [if_neg hp, List.count_eq_zero]
    intro hmem
    exact hp (List.of_mem_filter hmem)

theorem sum_map_ite_zero {α} [DecidableEq α] {v : α} (c : Nat) :
    ∀ {names : List α}, v ∉ names →
      (names.map (fun n => if v = n then c else 0)).sum = 0 := by
  intro names
  induction names with
  | nil => intro; rfl
  | cons n t ih =>
    intro hv
    have hvn : v ≠ n := fun h => hv (h ▸ List.mem_cons_self n t)
    have hvt : v ∉ t := fun h => hv (List.mem_cons_of_mem _ h)
    simp [hvn, ih hvt]

theorem sum_map_ite {α} [DecidableEq α] {v : α} (c : Nat) :
    ∀ {names : List α}, names.Nodup → v ∈ names →
      (names.map (fun n => if v = n then c else 0)).sum = c := by
  intro names
  induction names with
  | nil => intro _ hv; cases hv
  | cons n t ih =>
    intro hnd hv
    rcases List.nodup_cons.mp hnd with ⟨hn, hndt⟩
    by_cases hvn : v = n
    · subst hvn
      simp [sum_map_ite_zero c hn]
    · have hvt : v ∈ t := by
        cases hv with
        | head => exact absurd rfl hvn
        | tail _ h2 => exact h2
      simp [hvn, ih hndt hvt]

theorem IN_eq_true_iff (l : List Value) (v : Value) : IN l v = true ↔ v ∈ l := by
  simp [IN]

theorem mem_foldl_addName (g : Group) :
    ∀ (l : List Record) (acc : List Value) (v : Value),
      (v ∈ l.foldl (addName g) acc ↔ v ∈ acc ∨ v ∈ l.map (modF g)) := by
  intro l
  induction l with
  | nil => intro acc v; simp
  | cons r t ih =>
    intro acc v
    rw [List.foldl_cons]
    simp only [addName]
    cases hin : IN acc (modF g r) with
    | true =>
      have hmem : modF g r ∈ acc := (IN_eq_true_iff acc (modF g r)).mp hin
      rw [if_pos rfl, ih]
      simp only [List.map_cons, List.mem_cons]
      constructor
      · rintro (h | h)
        · exact Or.inl h
        · exact Or.inr (Or.inr h)
      · rintro (h | h | h)
        · exact Or.inl h
        · exact Or.inl (h ▸ hmem)
        · exact Or.inr h
    | false =>
      rw [if_neg (by simp), ih]
      simp only [List.map_cons, List.mem_cons, List.mem_append, List.mem_singleton,
        List.not_mem_nil, or_false]
      constructor
      · rintro ((h | h) | h)
        · exact Or.inl h
        · exact Or.inr (Or.inl h)
        · exact Or.inr (Or.inr h)
      · rintro (h | h | h)
        · exact Or.inl (Or.inl h)
        · exact Or.inl (Or.inr h)
        · exact Or.inr h

theorem nodup_foldl_addName (g : Group) :
    ∀ (l : List Record) (acc : List Value), acc.Nodup → (l.foldl (addName g) acc).Nodup := by
  intro l
  induction l with
  | nil => intro acc h; exact h
  | cons r t ih =>
    intro acc h
    rw [List.foldl_cons]
    apply ih
    simp only [addName]
    cases hin : IN acc (modF g r) with
    | true => rw [if_pos rfl]; exact h
    | false =>
      rw [if_neg (by simp)]
      have hmem : modF g r ∉ acc := fun hm => by
        rw [(IN_eq_true_iff acc (modF g r)).mpr hm] at hin
        cases hin
      simp [List.nodup_append, h, hmem]

theorem mem_collectNames (data : List Record) (g : Group) (v : Value) :
    v ∈ collectNames data g ↔ v ∈ data.map (modF g) := by
  unfold collectNames
  rw [mem_foldl_addName]
  simp

theorem nodup_collectNames (data : List Record) (g : Group) : (collectNames data g).Nodup :=
  nodup_foldl_addName g data [] List.nodup_nil

theorem distinctNames_perm (data : List Record) (g : Group) :
    (distinctNames data g).Perm (collectNames data g) :=
  List.perm_insertionSort vle (collectNames data g)

theorem distinctNames_sorted (data : List Record) (g : Group) :
    (distinctNames data g).Sorted vle :=
  List.sorted_insertionSort vle (collectNames data g)

theorem distinctNames_nodup (data : List Record) (g : Group) : (distinctNames data g).Nodup :=
  (distinctNames_perm data g).nodup_iff.mpr (nodup_collectNames data g)

theorem mem_distinctNames (data : List Record) (g : Group) (v : Value) :
    v ∈ distinctNames data g ↔ v ∈ data.map (modF g) := by
  rw [(distinctNames_perm data g).mem_iff, mem_collectNames]

theorem foldl_skip {α β} {step : β → α → β} :
    ∀ {l : List α}, (∀ r ∈ l, ∀ acc : β, step acc r = acc) → ∀ a : β, l.foldl step a = a := by
  intro l
  induction l with
  | nil => intro _ a; rfl
  | cons r t ih =>
    intro h a
    rw [List.foldl_cons, h r (List.mem_cons_self _ _)]
    exact ih (fun x hx acc => h x (List.mem_cons_of_mem _ hx) acc) a

/-- The core partition fact: for a duplicate-free list of keys that covers
every element's key, and a (loose-equality) match test that agrees with
strict key equality on the elements and keys at hand, the per-key filters
concatenate to a permutation of the data. -/
theorem join_filters_perm {α κ} [DecidableEq α] [DecidableEq κ]
    (data : List α) (p : α → κ) (q : α → κ → Bool)
    {names : List κ} (hnd : names.Nodup)
    (hq : ∀ r ∈ data, ∀ n ∈ names, q r n = decide (p r = n))
    (hcomp : ∀ r ∈ data, p r ∈ names) :
    ((names.map (fun n => data.filter (fun r => q r n))).flatten).Perm data := by
  rw [List.perm_iff_count]
  intro a
  rw [List.count_flatten, List.map_map]
  by_cases ha : a ∈ data
  · have hmap : names.map (List.count a ∘ fun n => data.filter (fun r => q r n)) =
        names.map (fun n => if p a = n then data.count a else 0) := by
      apply List.map_congr_left
      intro n hn
      simp only [Function.comp, count_filter_eq, hq a ha n hn]
      by_cases he : p a = n <;> simp [he]
    rw [hmap, sum_map_ite (data.count a) hnd (hcomp a ha)]
  · have hz : data.count a = 0 := List.count_eq_zero.mpr ha
    rw [hz]
    apply List.sum_eq_zero
    intro x hx
    obtain ⟨n, _, hxn⟩ := List.mem_map.mp hx
    rw [← hxn]
    simp only [Function.comp, count_filter_eq, hz]
    by_cases he : q a n = true <;> simp [he]

theorem groupBy_nil (data : List Record) (anc : List Group) :
    groupBy [] data anc = some (.leafObj data.enum) := rfl

theorem groupBy_cons_eq (g : Group) (rest : List Group) (data : List Record) (anc : List Group) :
    groupBy (g :: rest) data anc =
      match prepDatasets g with
      | none => none
      | some g1 => groupByLevel (groupBy rest) (parseGroupByField g1 g1.field) data anc := rfl

theorem groupBy_cons_some {g g1 : Group} (hp : prepDatasets g = some g1)
    (rest : List Group) (data : List Record) (anc : List Group) :
    groupBy (g :: rest) data anc =
      groupByLevel (groupBy rest) (parseGroupByField g1 g1.field) data anc := by
  rw [groupBy_cons_eq, hp]

theorem groupBy_cons_none {g : Group} (hp : prepDatasets g = none)
    (rest : List Group) (data : List Record) (anc : List Group) :
    groupBy (g :: rest) data anc = none := by
  rw [groupBy_cons_eq, hp]

/-- Successful node lists of one level, characterized name by name. -/
theorem groupByLevel_nodes {recur : List Record → List Group → Option GroupByResult}
    {g2 : Group} {data : List Record} {anc : List Group} {ns : List GroupNode}
    (h : groupByLevel recur g2 data anc = some (.nodes ns)) :
    List.Forall₂ (fun name node =>
        ∃ sub, recur (bucket data g2 name) (anc ++ [g2]) = some sub ∧
          node = GroupNode.mk name g2.chart (aggFunction (bucket data g2 name) g2 name) sub g2
            (pathAggFunction (bucket data g2 name) (anc ++ [g2]) g2 name)
            (bucket data g2 name))
      (distinctNames data g2) ns := by
  unfold groupByLevel at h
  rw [Option.map_eq_some'] at h
  obtain ⟨ys, hseq, hnodes⟩ := h
  injection hnodes with hys
  subst hys
  refine forall2_of_map_some ?_ (optSequence_some hseq)
  intro name node hx
  rw [Option.map_eq_some'] at hx
  obtain ⟨sub, hsub, hnode⟩ := hx
  exact ⟨sub, hsub, hnode.symm⟩

/-! ### C1: partition of the records into sibling buckets -/

/-- C1 (amended): at one level of `groupBy`, the sibling buckets (each
node's `data` array) concatenate to a permutation of the input records —
every record in exactly one bucket — provided JS loose equality agrees with
strict equality on the records' post-modifier group values (for example,
when the grouped values are all strings or all numbers). Without that
proviso the claim fails, see the counterexample. -/
theorem c1_partition_amended (data : List Record) (g g2 : Group) (rest anc : List Group)
    (ns : List GroupNode)
    (hprep : fullPrep g = some g2)
    (H : ∀ r ∈ data, ∀ r2 ∈ data,
      looseEqB (modF g2 r) (modF g2 r2) = decide (modF g2 r = modF g2 r2))
    (hrun : groupBy (g :: rest) data anc = some (.nodes ns)) :
    ((ns.map GroupNode.data).flatten).Perm data := by
  obtain ⟨g1, hp1, hparse⟩ := Option.map_eq_some'.mp hprep
  rw [groupBy_cons_some hp1, hparse] at hrun
  have hf2 := groupByLevel_nodes hrun
  have hdata : ns.map GroupNode.data = (distinctNames data g2).map (bucket data g2) := by
    apply map_eq_of_forall2
    apply hf2.imp
    intro name node hpn
    obtain ⟨sub, _, hnode⟩ := hpn
    rw [hnode]
    rfl
  rw [hdata]
  apply join_filters_perm data (modF g2) (fun r n => looseEqB (modF g2 r) n)
    (distinctNames_nodup data g2)
  · intro r hr n hn
    obtain ⟨r2, hr2, hr2n⟩ := List.mem_map.mp ((mem_distinctNames data g2 n).mp hn)
    rw [← hr2n]
    exact H r hr r2 hr2
  · intro r hr
    exact (mem_distinctNames data g2 (modF g2 r)).mpr (List.mem_map_of_mem _ hr)

/-- A grouping spec with no modifier and no series, grouping on field `g`. -/
def gPlain : Group :=
  { field := .str "g", modifier := none, modifierParams := [], datasets := [], chart := none }

/-- First counterexample record: `{g: "1"}` (a string value). -/
def recS1 : Record := [("g", Value.str "1")]

/-- Second counterexample record: `{g: 1}` (a number value). -/
def recN1 : Record := [("g", Value.num 1)]

def dataC1 : List Record := [recS1, recN1]

/-- The sibling buckets (`data` arrays) of a `groupBy` result's top level. -/
def nodeBuckets : Option GroupByResult → Option (List (List Record))
  | some (.nodes ns) => some (ns.map GroupNode.data)
  | _ => none

/-- C1 (counterexample): on records `[{g:"1"}, {g:1}]` the unique-values
loop deduplicates with strict equality (`indexOf`), producing both `"1"` and
`1` as group values, while the bucket filter matches with loose equality
(`==`), so each bucket contains both records: every record lands in two
buckets and the concatenated buckets are not a permutation of the input,
refuting the claimed exact partition for arbitrary record lists. -/
theorem c1_counterexample :
    nodeBuckets (groupBy [gPlain] dataC1 []) = some [[recS1, recN1], [recS1, recN1]]
    ∧ ¬ (([[recS1, recN1], [recS1, recN1]] : List (List Record)).flatten.Perm dataC1) :=
  ⟨by decide, by decide⟩

def dataC1w : List Record :=
  [[("g", Value.str "a")], [("g", Value.str "b")], [("g", Value.str "a")]]

def nsC1w : List GroupNode :=
  match groupBy [gPlain] dataC1w [] with
  | some (.nodes l) => l
  | _ => []

theorem c1_witness : ((nsC1w.map GroupNode.data).flatten).Perm dataC1w :=
  c1_partition_amended dataC1w gPlain gPlain [] [] nsC1w (by decide) (by decide) rfl

/-! ### C2: distinct values deduplicated, deterministic, sort order -/

/-- C2 (amended): the distinct-value sequence of a level is deduplicated
(`Nodup`), contains exactly the post-modifier values of the records, and is
sorted ascending — but by `names.sort()`, the JS default sort, which moves
`undefined` values to the end without string conversion and compares the
remaining values' string representations lexicographically (for strings
this is the claimed lexicographic order, e.g.
`["b","a","a","c"] ↦ ["a","b","c"]`, and a record missing the group field
contributes an `undefined` sorted last, e.g. `[{},{g:"z"}] ↦ ["z",
undefined]`); determinism is immediate since the computation is a pure
function of the input. -/
theorem c2_distinct_sorted (data : List Record) (g : Group) :
    (distinctNames data g).Sorted vle
    ∧ (distinctNames data g).Nodup
    ∧ (∀ v, v ∈ distinctNames data g ↔ v ∈ data.map (modF g))
    ∧ distinctNames
        [[("g", Value.str "b")], [("g", Value.str "a")], [("g", Value.str "a")],
         [("g", Value.str "c")]] gPlain
        = [Value.str "a", Value.str "b", Value.str "c"]
    ∧ distinctNames [[], [("g", Value.str "z")]] gPlain
        = [Value.str "z", Value.undefined] :=
  ⟨distinctNames_sorted data g, distinctNames_nodup data g,
   mem_distinctNames data g, by decide, by decide⟩

def dataC2 : List Record := [[("g", Value.num 9)], [("g", Value.num 10)]]

/-- C2 (counterexample): the claim's "numeric compare for numbers" fails.
On records with number values `9` and `10`, `names.sort()` compares the
strings `"9"` and `"10"` and emits `[10, 9]`, not the numerically ascending
`[9, 10]`. -/
theorem c2_counterexample :
    distinctNames dataC2 gPlain = [Value.num 10, Value.num 9]
    ∧ distinctNames dataC2 gPlain ≠ [Value.num 9, Value.num 10] :=
  ⟨by decide, by decide⟩

/-! ### C3: terminal state returns the bucket's records verbatim -/

/-- C3: with no grouping specs left, `groupBy` returns
`Object.assign({}, data)` — the bucket's records, index-keyed, with no
aggregation (modelled as the enumerated record list, whose values in order
are exactly the records); consequently after the last spec each node's
`drilldown` (its children) is the leaf payload of its own `data` bucket,
which is the filtered raw record collection of its parent's records. -/
theorem c3_leaf_payload (data : List Record) (anc : List Group) (g : Group)
    (ns : List GroupNode)
    (hrun : groupBy [g] data anc = some (.nodes ns)) :
    groupBy [] data anc = some (.leafObj data.enum)
    ∧ data.enum.map Prod.snd = data
    ∧ ∀ node ∈ ns, node.drilldown = .leafObj node.data.enum
        ∧ node.data = data.filter (fun r => looseEqB (modF node.group r) node.name) := by
  refine ⟨rfl, List.enum_map_snd data, ?_⟩
  cases hp : prepDatasets g with
  | none => rw [groupBy_cons_none hp] at hrun; cases hrun
  | some g1 =>
    rw [groupBy_cons_some hp] at hrun
    have hf2 := groupByLevel_nodes hrun
    intro node hnode
    obtain ⟨name, _, sub, hsub, hmk⟩ := forall2_mem_right hf2 node hnode
    rw [groupBy_nil] at hsub
    have hsub2 : sub = .leafObj (bucket data (parseGroupByField g1 g1.field) name).enum := by
      injection hsub.symm
    subst hmk
    subst hsub2
    exact ⟨rfl, rfl⟩

def dataC3w : List Record := [[("g", Value.str "a")], [("g", Value.str "b")]]

def nsC3w : List GroupNode :=
  match groupBy [gPlain] dataC3w [] with
  | some (.nodes l) => l
  | _ => []

theorem c3_witness :
    groupBy [] dataC3w [] = some (.leafObj dataC3w.enum)
    ∧ dataC3w.enum.map Prod.snd = dataC3w
    ∧ ∀ node ∈ nsC3w, node.drilldown = .leafObj node.data.enum
        ∧ node.data = dataC3w.filter (fun r => looseEqB (modF node.group r) node.name) :=
  c3_leaf_payload dataC3w [] gPlain nsC3w rfl

/-! ### C4: re-running groupBy on the mutated specs -/

/-- C4 (amended): re-running `groupBy` with the same data and with spec
objects possibly carrying the in-place mutations of the first run
(`aggField`, `modifier`, `modifierParams`, rewritten `field`) produces
identical output, provided re-parsing each already-parsed spec is a no-op
(`fullPrep g' = some g'`). That holds for every ordinary spec; it fails
exactly when the rewritten field itself starts with `date_trunc` and
contains a parenthesized group (see the counterexample). -/
theorem c4_rerun_amended {groups groups' : List Group}
    (h : List.Forall₂
      (fun g g' => g' = g ∨ (fullPrep g = some g' ∧ fullPrep g' = some g'))
      groups groups') :
    ∀ (data : List Record) (anc : List Group),
      groupBy groups' data anc = groupBy groups data anc := by
  induction h with
  | nil => intro data anc; rfl
  | @cons g g' t t' hgg' htt' ih =>
    intro data anc
    have hrec : groupBy t' = groupBy t := by
      funext f a
      exact ih f a
    rcases hgg' with rfl | ⟨h1, h2⟩
    · rw [groupBy_cons_eq, groupBy_cons_eq, hrec]
    · obtain ⟨g1, hp1, hparse1⟩ := Option.map_eq_some'.mp h1
      obtain ⟨g1', hp1', hparse1'⟩ := Option.map_eq_some'.mp h2
      rw [groupBy_cons_some hp1, groupBy_cons_some hp1', hparse1, hparse1', hrec]

/-- The spec whose parsed field is itself a `date_trunc(...)` expression. -/
def gC4 : Group :=
  { field := .str "date_trunc(a,date_trunc(m))", modifier := none, modifierParams := [],
    datasets := [], chart := none }

/-- `gC4` after the first run's in-place parse: the comma split of
`"a,date_trunc(m)"` put `"date_trunc(m)"` into `field`. -/
def gC4p : Group :=
  { field := .str "date_trunc(m)", modifier := some "date_trunc",
    modifierParams := ["a", "date_trunc(m)"], datasets := [], chart := none }

def recC4 : Record := [("date_trunc(m)", Value.str "v")]

/-- The `name` of the first sibling node of a `groupBy` result. -/
def firstNodeName : Option GroupByResult → Option Value
  | some (.nodes (n :: _)) => some n.name
  | _ => none

/-- C4 (counterexample): the first run parses `gC4` into `gC4p` in place and
groups on field `"date_trunc(m)"`, producing a node named `"v"`; the second
run re-parses `gC4p`, whose field again matches `/^date_trunc/`, rewriting
`field` to `modifierParams[1]` of a one-token split — `undefined` — so the
second run's node is named `undefined` and the outputs differ, refuting
idempotence for spec objects carrying the first run's mutations. -/
theorem c4_counterexample :
    fullPrep gC4 = some gC4p
    ∧ firstNodeName (groupBy [gC4] [recC4] []) = some (Value.str "v")
    ∧ firstNodeName (groupBy [gC4p] [recC4] []) = some Value.undefined
    ∧ groupBy [gC4p] [recC4] [] ≠ groupBy [gC4] [recC4] [] := by
  refine ⟨by decide, rfl, rfl, ?_⟩
  intro h
  have h2 := congrArg firstNodeName h
  have e1 : firstNodeName (groupBy [gC4p] [recC4] []) = some Value.undefined := rfl
  have e2 : firstNodeName (groupBy [gC4] [recC4] []) = some (Value.str "v") := rfl
  rw [e1, e2] at h2
  exact absurd h2 (by decide)

def gC4w : Group :=
  { field := .str "date_trunc(month,startdate)", modifier := none, modifierParams := [],
    datasets := [⟨"sum(revenue)", .undefined⟩], chart := none }

def gC4wP : Group :=
  { field := .str "startdate", modifier := some "date_trunc",
    modifierParams := ["month", "startdate"],
    datasets := [⟨"sum(revenue)", .str "revenue"⟩], chart := none }

def dataC4w : List Record :=
  [[("startdate", Value.str "2018-03-15"), ("revenue", Value.str "7")]]

theorem c4_witness :
    groupBy [gC4wP] dataC4w [] = groupBy [gC4w] dataC4w [] :=
  c4_rerun_amended
    (List.Forall₂.cons (Or.inr ⟨by decide, by decide⟩) List.Forall₂.nil) dataC4w []

/-! ### C5: date truncation and the silent fallback -/

/-- A value whose date parse fails is always returned unmodified: the
`try { ... } catch (e) {}` around each truncation swallows the
`toISOString` throw and leaves `val` untouched, whatever the modifier. -/
theorem applyModifier_of_invalid_date (v : Value) (g : Group)
    (hnone : jsDateToISO v = none) : applyModifier v g = v := by
  unfold applyModifier
  cases g.modifier with
  | none => rfl
  | some m =>
    cases hdm : reTest "date_trunc" m with
    | false => simp [hdm]
    | true =>
      cases hpar : g.modifierParams with
      | nil => simp [hdm, hpar]
      | cons t ts =>
        cases h1 : reTest "day" t <;> cases h2 : reTest "month" t <;>
          cases h3 : reTest "year" t <;> simp [hdm, hpar, h1, h2, h3, hnone]

/-- The spec-example group: `{modifier: "date_trunc",
modifierParams: ["month", "startdate"]}`. -/
def gMonth : Group :=
  { field := .str "startdate", modifier := some "date_trunc",
    modifierParams := ["month", "startdate"], datasets := [], chart := none }

/-- C5: with a `date_trunc` modifier, a parseable date is truncated to the
first 10 / 7 / 4 characters of its ISO rendering (`YYYY-MM-DD`, `YYYY-MM`,
`YYYY`) for units `day` / `month` / `year`, and every value whose date parse
fails is returned unmodified, without raising (the catch swallows the
throw); in particular `"2018-03-15T00:00:00Z"` truncates to `"2018-03"` for
unit `month` and `"not-a-date"` comes back unchanged. -/
theorem c5_date_trunc (v : Value) (g : Group) (rest : List String)
    (hm : g.modifier = some "date_trunc") :
    (g.modifierParams = "day" :: rest →
       applyModifier v g = (jsDateToISO v).elim v (fun iso => .str (strTake iso 10)))
    ∧ (g.modifierParams = "month" :: rest →
       applyModifier v g = (jsDateToISO v).elim v (fun iso => .str (strTake iso 7)))
    ∧ (g.modifierParams = "year" :: rest →
       applyModifier v g = (jsDateToISO v).elim v (fun iso => .str (strTake iso 4)))
    ∧ (jsDateToISO v = none → applyModifier v g = v)
    ∧ applyModifier (.str "2018-03-15T00:00:00Z") gMonth = .str "2018-03"
    ∧ applyModifier (.str "not-a-date") gMonth = .str "not-a-date" := by
  refine ⟨?_, ?_, ?_, applyModifier_of_invalid_date v g, by decide, by decide⟩
  all_goals intro hp
  all_goals cases hiso : jsDateToISO v
  all_goals
    simp [applyModifier, hm, hp, hiso,
      show reTest "date_trunc" "date_trunc" = true from rfl,
      show reTest "day" "day" = true from rfl,
      show reTest "day" "month" = false from rfl,
      show reTest "month" "month" = true from rfl,
      show reTest "day" "year" = false from rfl,
      show reTest "month" "year" = false from rfl,
      show reTest "year" "year" = true from rfl]

theorem c5_witness :
    (gMonth.modifierParams = "day" :: ["startdate"] →
       applyModifier (.str "2018-03-15T00:00:00Z") gMonth =
         (jsDateToISO (.str "2018-03-15T00:00:00Z")).elim (.str "2018-03-15T00:00:00Z")
           (fun iso => .str (strTake iso 10)))
    ∧ (gMonth.modifierParams = "month" :: ["startdate"] →
       applyModifier (.str "2018-03-15T00:00:00Z") gMonth =
         (jsDateToISO (.str "2018-03-15T00:00:00Z")).elim (.str "2018-03-15T00:00:00Z")
           (fun iso => .str (strTake iso 7)))
    ∧ (gMonth.modifierParams = "year" :: ["startdate"] →
       applyModifier (.str "2018-03-15T00:00:00Z") gMonth =
         (jsDateToISO (.str "2018-03-15T00:00:00Z")).elim (.str "2018-03-15T00:00:00Z")
           (fun iso => .str (strTake iso 4)))
    ∧ (jsDateToISO (.str "2018-03-15T00:00:00Z") = none →
       applyModifier (.str "2018-03-15T00:00:00Z") gMonth = .str "2018-03-15T00:00:00Z")
    ∧ applyModifier (.str "2018-03-15T00:00:00Z") gMonth = .str "2018-03"
    ∧ applyModifier (.str "not-a-date") gMonth = .str "not-a-date" :=
  c5_date_trunc (.str "2018-03-15T00:00:00Z") gMonth ["startdate"] rfl

/-! ### C6: the quantile helper -/

theorem jsIdx_eq_some {l : List Rat} {i : Int} (h0 : 0 ≤ i) (h : i.toNat < l.length) :
    jsIdx l i = some (l.getD i.toNat 0) := by
  unfold jsIdx
  rw [if_pos h0, List.get?_eq_getElem?, List.getElem?_eq_getElem h,
    List.getD_eq_getElem?_getD, List.getElem?_eq_getElem h]
  rfl

theorem jsIdx_eq_none {l : List Rat} {i : Int} (h : l.length ≤ i.toNat) :
    jsIdx l i = none := by
  unfold jsIdx
  split
  · rw [List.get?_eq_getElem?, List.getElem?_eq_none h]
  · rfl

/-- The interpolation formula of `Quartile`, index by index. -/
theorem quartile_interp (l : List Rat) (q : Rat) (hne : l ≠ []) (h0 : 0 ≤ q) (h1 : q ≤ 1) :
    ∀ base : Int, base = ⌊((l.length : Rat) - 1) * q⌋ →
      (base + 1 < (l.length : Int) →
        Quartile l q = some ((Array_Sort_Numbers l).getD base.toNat 0 +
          (((l.length : Rat) - 1) * q - (base : Rat)) *
            ((Array_Sort_Numbers l).getD (base.toNat + 1) 0 -
             (Array_Sort_Numbers l).getD base.toNat 0)))
      ∧ ((l.length : Int) ≤ base + 1 →
        Quartile l q = some ((Array_Sort_Numbers l).getD base.toNat 0)) := by
  have hlen : (Array_Sort_Numbers l).length = l.length :=
    (List.perm_insertionSort _ l).length_eq
  have hn : 0 < l.length := List.length_pos.mpr hne
  have hn1 : (1 : Rat) ≤ (l.length : Rat) := by exact_mod_cast hn
  have hsub : (0 : Rat) ≤ (l.length : Rat) - 1 := by linarith
  have hpos0 : (0 : Rat) ≤ ((l.length : Rat) - 1) * q := mul_nonneg hsub h0
  have hposle : ((l.length : Rat) - 1) * q ≤ (l.length : Rat) - 1 := by
    calc ((l.length : Rat) - 1) * q ≤ ((l.length : Rat) - 1) * 1 :=
          mul_le_mul_of_nonneg_left h1 hsub
      _ = (l.length : Rat) - 1 := mul_one _
  intro base hbase
  have hb0 : 0 ≤ base := hbase ▸ Int.floor_nonneg.mpr hpos0
  have hble : base ≤ (l.length : Int) - 1 := by
    rw [hbase]
    calc ⌊((l.length : Rat) - 1) * q⌋ ≤ ⌊(l.length : Rat) - 1⌋ := Int.floor_le_floor hposle
      _ = (l.length : Int) - 1 := by
          rw [show ((l.length : Rat) - 1) = (((l.length : Int) - 1 : Int) : Rat) by push_cast; ring]
          exact Int.floor_intCast _
  have hq : Quartile l q =
      match jsIdx (Array_Sort_Numbers l) (base + 1) with
      | some nxt => (jsIdx (Array_Sort_Numbers l) base).map
          (fun b => b + (((l.length : Rat) - 1) * q - (base : Rat)) * (nxt - b))
      | none => jsIdx (Array_Sort_Numbers l) base := by
    simp only [Quartile, QuartileSt, hlen, ← hbase]
  constructor
  · intro hcase
    have ht1 : (base + 1).toNat = base.toNat + 1 := by omega
    have hidx1 : (base + 1).toNat < (Array_Sort_Numbers l).length := by
      rw [hlen]; omega
    have hidx0 : base.toNat < (Array_Sort_Numbers l).length := by
      rw [hlen]; omega
    rw [hq, jsIdx_eq_some (by omega) hidx1, jsIdx_eq_some hb0 hidx0, ht1]
    rfl
  · intro hcase
    have hidx1 : (Array_Sort_Numbers l).length ≤ (base + 1).toNat := by
      rw [hlen]; omega
    have hidx0 : base.toNat < (Array_Sort_Numbers l).length := by
      rw [hlen]; omega
    rw [hq, jsIdx_eq_none hidx1, jsIdx_eq_some hb0 hidx0]

theorem quartile_ex_half : Quartile [1, 2, 3, 4] (1/2) = some (5/2) := by
  have hfl : (1 : Int) = ⌊((([1, 2, 3, 4] : List Rat).length : Rat) - 1) * (1/2)⌋ := by
    rw [eq_comm, Int.floor_eq_iff] <;> norm_num
  have h := (quartile_interp [1, 2, 3, 4] (1/2) (by decide) (by norm_num) (by norm_num)
    1 hfl).1 (by norm_num)
  rw [h, show Array_Sort_Numbers [1, 2, 3, 4] = [1, 2, 3, 4] from by decide]
  norm_num [List.getD]

theorem quartile_ex_quarter : Quartile [1, 2, 3, 4] (1/4) = some (7/4) := by
  have hfl : (0 : Int) = ⌊((([1, 2, 3, 4] : List Rat).length : Rat) - 1) * (1/4)⌋ := by
    rw [eq_comm, Int.floor_eq_iff] <;> norm_num
  have h := (quartile_interp [1, 2, 3, 4] (1/4) (by decide) (by norm_num) (by norm_num)
    0 hfl).1 (by norm_num)
  rw [h, show Array_Sort_Numbers [1, 2, 3, 4] = [1, 2, 3, 4] from by decide]
  norm_num [List.getD]

/-- C6: for a nonempty list and `0 ≤ q ≤ 1`, `Quartile` sorts ascending
numerically and returns the linear-interpolation quantile: with
`pos = (n-1)·q`, `base = ⌊pos⌋`, `rest = pos - base`, it yields
`s[base] + rest·(s[base+1] - s[base])` when index `base+1` is in range and
`s[base]` otherwise; in particular `Quartile [1,2,3,4] 0.5 = 2.5` and
`Quartile [1,2,3,4] 0.25 = 1.75`. -/
theorem c6_quantile (l : List Rat) (q : Rat) (hne : l ≠ []) (h0 : 0 ≤ q) (h1 : q ≤ 1) :
    ((Array_Sort_Numbers l).Sorted (· ≤ ·) ∧ (Array_Sort_Numbers l).Perm l)
    ∧ (∀ base : Int, base = ⌊((l.length : Rat) - 1) * q⌋ →
        (base + 1 < (l.length : Int) →
          Quartile l q = some ((Array_Sort_Numbers l).getD base.toNat 0 +
            (((l.length : Rat) - 1) * q - (base : Rat)) *
              ((Array_Sort_Numbers l).getD (base.toNat + 1) 0 -
               (Array_Sort_Numbers l).getD base.toNat 0)))
        ∧ ((l.length : Int) ≤ base + 1 →
          Quartile l q = some ((Array_Sort_Numbers l).getD base.toNat 0)))
    ∧ Quartile [1, 2, 3, 4] (1/2) = some (5/2)
    ∧ Quartile [1, 2, 3, 4] (1/4) = some (7/4) :=
  ⟨⟨List.sorted_insertionSort _ l, List.perm_insertionSort _ l⟩,
   quartile_interp l q hne h0 h1, quartile_ex_half, quartile_ex_quarter⟩

theorem c6_witness :
    ((Array_Sort_Numbers [1, 2, 3, 4]).Sorted (· ≤ ·)
      ∧ (Array_Sort_Numbers [1, 2, 3, 4]).Perm [1, 2, 3, 4])
    ∧ (∀ base : Int, base = ⌊((([1, 2, 3, 4] : List Rat).length : Rat) - 1) * (1/2)⌋ →
        (base + 1 < (([1, 2, 3, 4] : List Rat).length : Int) →
          Quartile [1, 2, 3, 4] (1/2) = some ((Array_Sort_Numbers [1, 2, 3, 4]).getD base.toNat 0 +
            (((([1, 2, 3, 4] : List Rat).length : Rat) - 1) * (1/2) - (base : Rat)) *
              ((Array_Sort_Numbers [1, 2, 3, 4]).getD (base.toNat + 1) 0 -
               (Array_Sort_Numbers [1, 2, 3, 4]).getD base.toNat 0)))
        ∧ ((([1, 2, 3, 4] : List Rat).length : Int) ≤ base + 1 →
          Quartile [1, 2, 3, 4] (1/2) = some ((Array_Sort_Numbers [1, 2, 3, 4]).getD base.toNat 0)))
    ∧ Quartile [1, 2, 3, 4] (1/2) = some (5/2)
    ∧ Quartile [1, 2, 3, 4] (1/4) = some (7/4) :=
  c6_quantile [1, 2, 3, 4] (1/2) (by decide) (by norm_num) (by norm_num)

/-! ### C7: parseAggStr and fatality of malformed descriptors -/

theorem parseAggStr_eq_none {s : String} (hs : '(' ∉ s.data) : parseAggStr s = none := by
  unfold parseAggStr jsMatchParen
  have hdrop : s.data.dropWhile (fun c => decide (c ≠ '(')) = [] := by
    rw [List.dropWhile_eq_nil_iff]
    intro x hx
    simp only [ne_eq, decide_not, Bool.not_eq_true', decide_eq_false_iff_not]
    intro he
    exact hs (he ▸ hx)
  rw [hdrop]

theorem prepDatasets_eq_none {g : Group} {d : Dataset} (hd : d ∈ g.datasets)
    (hfail : parseAggStr d.data = none) : prepDatasets g = none := by
  unfold prepDatasets
  have hmem : none ∈ g.datasets.map prepDataset := by
    refine List.mem_map.mpr ⟨d, hd, ?_⟩
    unfold prepDataset
    rw [hfail]
    rfl
  rw [optSequence_none hmem]
  rfl

/-- C7: `parseAggStr` extracts the parenthesized content (`"sum(revenue)"`
gives `"revenue"`); on a string with no parentheses the regex match is
`null` and the `match[1]` access throws (modelled `none`), and a series
descriptor without parentheses in a level's `datasets` makes the whole
`groupBy` call fail — for any data, with no partial output. -/
theorem c7_parse_agg (s : String) (g : Group) (d : Dataset) (data : List Record)
    (rest anc : List Group)
    (hs : '(' ∉ s.data) (hd : d ∈ g.datasets) (hdp : '(' ∉ d.data.data) :
    parseAggStr "sum(revenue)" = some "revenue"
    ∧ parseAggStr s = none
    ∧ groupBy (g :: rest) data anc = none :=
  ⟨by decide, parseAggStr_eq_none hs,
   groupBy_cons_none (prepDatasets_eq_none hd (parseAggStr_eq_none hdp)) rest data anc⟩

def dC7 : Dataset := ⟨"oops", .undefined⟩

def gC7 : Group := { field := .str "g", modifier := none, modifierParams := [],
                     datasets := [dC7], chart := none }

theorem c7_witness :
    parseAggStr "sum(revenue)" = some "revenue"
    ∧ parseAggStr "noparens" = none
    ∧ groupBy [gC7] [[("g", Value.str "a")]] [] = none :=
  c7_parse_agg "noparens" gC7 dC7 [[("g", Value.str "a")]] [] []
    (by decide) (by decide) (by decide)

/-! ### C8: max/min sentinels on an empty bucket -/

theorem reTest_false_of_ne_head {c1 c2 : Char} {t1 t2 : List Char} {s : String}
    (hne : c2 ≠ c1) (h : reTest (String.mk (c1 :: t1)) s = true) :
    reTest (String.mk (c2 :: t2)) s = false := by
  unfold reTest at h ⊢
  cases hs : s.data with
  | nil => rw [hs] at h; simp [listPre] at h
  | cons x xs =>
    rw [hs] at h
    simp only [listPre, Bool.and_eq_true, beq_iff_eq] at h
    obtain ⟨h1, _⟩ := h
    subst h1
    simp [listPre, hne]

theorem reTest_false_of_ne_second {c cA cB : Char} {t1 t2 : List Char} {s : String}
    (hne : cB ≠ cA) (h : reTest (String.mk (c :: cA :: t1)) s = true) :
    reTest (String.mk (c :: cB :: t2)) s = false := by
  unfold reTest at h ⊢
  cases hs : s.data with
  | nil => rw [hs] at h; simp [listPre] at h
  | cons x xs =>
    cases xs with
    | nil => rw [hs] at h; simp [listPre] at h
    | cons y ys =>
      rw [hs] at h
      simp only [listPre, Bool.and_eq_true, beq_iff_eq] at h
      obtain ⟨h1, h2, _⟩ := h
      subst h1
      subst h2
      simp [listPre, hne]

theorem maxFold_empty (data : List Record) (g : Group) (name : Value) (aggF : Value)
    (hempty : ∀ r ∈ data, looseEqB (modF g r) name = false) :
    maxFold data g name aggF = minSafeInteger := by
  unfold maxFold
  apply foldl_skip
  intro r hr acc
  simp [hempty r hr]

theorem minFold_empty (data : List Record) (g : Group) (name : Value) (aggF : Value)
    (hempty : ∀ r ∈ data, looseEqB (modF g r) name = false) :
    minFold data g name aggF = maxSafeInteger := by
  unfold minFold
  apply foldl_skip
  intro r hr acc
  simp [hempty r hr]

/-- C8: the `max` and `min` aggregates are running comparisons over
integer-parsed values initialized to `Number.MIN_SAFE_INTEGER` and
`Number.MAX_SAFE_INTEGER` (`±(2^53 - 1)`); on a bucket with no record
matching the group value, `aggFunction` returns the untouched sentinel for
that series rather than an error. -/
theorem c8_minmax_sentinels (data : List Record) (g : Group) (name : Value) (d : Dataset)
    (hds : g.datasets = [d])
    (hempty : ∀ r ∈ data, looseEqB (modF g r) name = false) :
    (reTest "max" d.data = true → aggFunction data g name = [.int minSafeInteger])
    ∧ (reTest "min" d.data = true → aggFunction data g name = [.int maxSafeInteger])
    ∧ minSafeInteger = -(2 ^ 53 - 1) ∧ maxSafeInteger = 2 ^ 53 - 1 := by
  refine ⟨?_, ?_, by decide, by decide⟩
  · intro hmax
    have hsum : reTest "sum" d.data = false := reTest_false_of_ne_head (by decide) hmax
    simp [aggFunction, hds, aggOne, hsum, hmax, maxFold_empty data g name d.aggField hempty]
  · intro hmin
    have hsum : reTest "sum" d.data = false := reTest_false_of_ne_head (by decide) hmin
    have hmax : reTest "max" d.data = false := reTest_false_of_ne_second (by decide) hmin
    simp [aggFunction, hds, aggOne, hsum, hmax, hmin,
      minFold_empty data g name d.aggField hempty]

def dC8max : Dataset := ⟨"max(v)", .undefined⟩

def gC8 : Group := { field := .str "g", modifier := none, modifierParams := [],
                     datasets := [dC8max], chart := none }

theorem c8_witness :
    (reTest "max" dC8max.data = true →
      aggFunction [[("g", Value.str "b")]] gC8 (Value.str "a") = [.int minSafeInteger])
    ∧ (reTest "min" dC8max.data = true →
      aggFunction [[("g", Value.str "b")]] gC8 (Value.str "a") = [.int maxSafeInteger])
    ∧ minSafeInteger = -(2 ^ 53 - 1) ∧ maxSafeInteger = 2 ^ 53 - 1 :=
  c8_minmax_sentinels [[("g", Value.str "b")]] gC8 (Value.str "a") dC8max rfl (by decide)

/-! ### C9: empty record collection -/

/-- C9 (amended): for a non-empty spec list whose head's series descriptors
parse, `groupBy` on an empty record collection returns the empty node
sequence: there are no distinct values, hence no siblings. (Without the
parse proviso the call throws even on empty data, see the counterexample.) -/
theorem c9_empty_data (g g1 : Group) (rest anc : List Group)
    (hprep : prepDatasets g = some g1) :
    groupBy (g :: rest) [] anc = some (.nodes []) := by
  rw [groupBy_cons_some hprep]
  rfl

def gC9 : Group := { field := .str "g", modifier := none, modifierParams := [],
                     datasets := [⟨"oops", .undefined⟩], chart := none }

/-- C9 (counterexample): the claim promises "no nodes, no error" for every
non-empty spec list, but the aggregate-field parse loop runs before the
data is inspected: with a malformed series descriptor (`"oops"`, no
parentheses) `groupBy` on an empty record collection throws instead of
returning the empty sequence. -/
theorem c9_counterexample :
    groupBy [gC9] [] [] = none ∧ groupBy [gC9] [] [] ≠ some (.nodes []) := by
  have h1 : groupBy [gC9] ([] : List Record) [] = none := rfl
  exact ⟨h1, by rw [h1]; exact fun h => Option.noConfusion h⟩

def gC9w : Group := { field := .str "g", modifier := none, modifierParams := [],
                      datasets := [⟨"sum(v)", .undefined⟩], chart := none }

def gC9wP : Group := { field := .str "g", modifier := none, modifierParams := [],
                       datasets := [⟨"sum(v)", .str "v"⟩], chart := none }

theorem c9_witness : groupBy [gC9w] [] [] = some (.nodes []) :=
  c9_empty_data gC9w gC9wP [] [] (by decide)

/-! ### C10: the quantile helper sorts the caller's array in place -/

/-- C10: `Array_Sort_Numbers` is `inputarray.sort(...)` — it sorts the very
array it is given and returns it, not a copy — so after any
`Quartile`/`Quartile_25`/`Quartile_50`/`Quartile_75` call (the boxplot
aggregation path included, whose quartiles go through these helpers) the
caller-supplied values array has been mutated into ascending numeric order:
the post-state returned by `QuartileSt` is the sorted permutation of the
input, and on `[3, 1]` it differs from the array passed in. -/
theorem c10_sort_in_place (l : List Rat) (q : Rat) :
    (QuartileSt l q).2 = Array_Sort_Numbers l
    ∧ (Quartile_25St l).2 = Array_Sort_Numbers l
    ∧ (Quartile_50St l).2 = Array_Sort_Numbers l
    ∧ (Quartile_75St l).2 = Array_Sort_Numbers l
    ∧ (Array_Sort_Numbers l).Sorted (· ≤ ·)
    ∧ (Array_Sort_Numbers l).Perm l
    ∧ (QuartileSt [3, 1] (1/2)).2 ≠ [3, 1] :=
  ⟨rfl, rfl, rfl, rfl, List.sorted_insertionSort _ l, List.perm_insertionSort _ l, by decide⟩
end EzGroupby
